import Mathlib

/-
Formal verification of the go-dvote voting node core, as a shallow embedding
in Lean 4.  The embedding covers:

* the types package (Process, Vote, ScrutinizerOnProcessData, QueryData),
* the Scrutinizer event listener (vochain/scrutinizer/scrutinizer.go):
  per-block buffers, Commit, Rollback, OnProcess, OnVote, OnCancel,
  OnRevealKeys, and the key-listing routine used by NewScrutinizer,
* the two ABCI BaseApplication variants present in the source tree
  (the Amino-codec application and the plain-JSON application):
  CheckTx, DeliverTx and Query.

Byte slices are modelled as lists of naturals, Go int/int64 as Int,
uint32 tally cells as naturals reduced modulo 2^32 on update.  Fallible Go
calls (value, error) are modelled with Except/Option.  Helper functions of
the scrutinizer that live in files not included in the source snapshot
(process.go) are modelled from the specification and marked as such in
their doc comments.
-/

namespace Dvote

/-- Byte strings (Go byte slices) are modelled as lists of naturals. -/
abbrev Bytes := List Nat

/-! ## The types package: processes and their derived predicates -/

/-- Modelled from the spec: process type constant PollVote (the constants file
of the types package is not among the provided sources; the value comes from
the spec data model, section 3). -/
def PollVote : String := "poll-vote"

/-- Modelled from the spec: process type constant PetitionSign. -/
def PetitionSign : String := "petition-sign"

/-- Modelled from the spec: process type constant EncryptedPoll. -/
def EncryptedPoll : String := "encrypted-poll"

/-- Modelled from the spec: process type constant SnarkVote. -/
def SnarkVote : String := "snark-vote"

/-- Process state, following the Process struct of the types package.
The Go field Type is renamed to lowercase type because Type is reserved
in Lean. -/
structure Process where
  Canceled : Bool
  CommitmentKeys : List String
  EncryptionPrivateKeys : List String
  EncryptionPublicKeys : List String
  EntityID : Bytes
  KeyIndex : Int
  MkRoot : String
  NumberOfBlocks : Int
  Paused : Bool
  RevealKeys : List String
  StartBlock : Int
  type : String
deriving DecidableEq

/-- Read of a Go map with string keys and bool values: a missing key yields
the zero value false. -/
def goBoolMapGet : List (String × Bool) → String → Bool
  | [], _ => false
  | (k, v) :: rest, t => if t = k then v else goBoolMapGet rest t

/-- The ProcessRequireKeys map literal of the types package. -/
def ProcessRequireKeys : List (String × Bool) :=
  [(PollVote, false), (PetitionSign, false), (EncryptedPoll, true), (SnarkVote, true)]

/-- The ProcessIsEncrypted map literal of the types package. -/
def ProcessIsEncrypted : List (String × Bool) :=
  [(PollVote, false), (PetitionSign, false), (EncryptedPoll, true), (SnarkVote, true)]

/-- RequireKeys indicates whether a process requires Encryption or Commitment
keys (types package). -/
def Process.RequireKeys (p : Process) : Bool :=
  goBoolMapGet ProcessRequireKeys p.type

/-- IsEncrypted indicates whether a process has an encrypted payload
(types package). -/
def Process.IsEncrypted (p : Process) : Bool :=
  goBoolMapGet ProcessIsEncrypted p.type

/-! ## The types package: votes and callback data -/

/-- A single vote, following the Vote struct of the types package. -/
structure Vote where
  EncryptionKeyIndexes : List Int
  Height : Int
  Nullifier : Bytes
  ProcessID : Bytes
  VotePackage : String
deriving DecidableEq

/-- Callback payload for process events (types package). -/
structure ScrutinizerOnProcessData where
  EntityID : Bytes
  ProcessID : Bytes
deriving DecidableEq

/-! ## Scrutinizer state -/

/-- MaxQuestions is the maximum number of questions allowed in a VotePackage
(vochain/scrutinizer/scrutinizer.go). -/
def MaxQuestions : Nat := 64

/-- MaxOptions is the maximum number of options allowed in a VotePackage
question (vochain/scrutinizer/scrutinizer.go). -/
def MaxOptions : Nat := 64

/-- ProcessVotes: results of a voting process as a two dimensional array,
question by option.  Source cells are uint32; updates wrap modulo 2^32. -/
abbrev ProcessVotes := List (List Nat)

/-- The scrutinizer local key-value store, split by key prefix as documented
at the top of scrutinizer.go: ProcessEnding (key is block number, used to
schedule results computing), LiveProcess (key is processId, temporary storage
for live results), Entity (key is entityId) and Results (key is processId). -/
structure ScrutStorage where
  processEnding : Int → List Bytes
  liveProcess : Bytes → Option ProcessVotes
  entity : Bytes → Option (List Bytes)
  results : Bytes → Option ProcessVotes

/-- The Scrutinizer component (vochain/scrutinizer/scrutinizer.go).  The
vochain state is visible to it only through process lookup, modelled as the
function field vochainProcess (VochainState.Process pid false: none models a
lookup error). -/
structure Scrutinizer where
  vochainProcess : Bytes → Option Process
  storage : ScrutStorage
  votePool : List Vote
  processPool : List ScrutinizerOnProcessData
  resultsPool : List ScrutinizerOnProcessData
  entityCount : Int

/-- Pointwise update of the processEnding table at one block key. -/
def setProcessEnding (st : ScrutStorage) (h : Int) (v : List Bytes) : ScrutStorage :=
  { processEnding := fun b => if b = h then v else st.processEnding b
    liveProcess := st.liveProcess
    entity := st.entity
    results := st.results }

/-- Pointwise update of the liveProcess table at one process key. -/
def setLiveProcess (st : ScrutStorage) (pid : Bytes) (v : ProcessVotes) : ScrutStorage :=
  { processEnding := st.processEnding
    liveProcess := fun k => if k = pid then some v else st.liveProcess k
    entity := st.entity
    results := st.results }

/-- Pointwise update of the entity table at one entity key. -/
def setEntity (st : ScrutStorage) (eid : Bytes) (v : List Bytes) : ScrutStorage :=
  { processEnding := st.processEnding
    liveProcess := st.liveProcess
    entity := fun k => if k = eid then some v else st.entity k
    results := st.results }

/-! ## Scrutinizer helper operations

The helpers called by Commit and the event hooks live in a scrutinizer file
(process.go) that is not part of the provided source snapshot; they are
modelled from the specification, as their doc comments state. -/

/-- Modelled from the spec: isLiveResultsProcess (scrutinizer process.go, not
among the provided sources) fetches the process from the vochain state and
reports whether it has live results; per the spec glossary, live results are
the running tally for non-encrypted processes.  A failed state fetch is an
error. -/
def isLiveResultsProcess (s : Scrutinizer) (pid : Bytes) : Except String Bool :=
  match s.vochainProcess pid with
  | none => Except.error ("cannot get process")
  | some p => Except.ok (!(Process.IsEncrypted p))

/-- Modelled from the spec: registerPendingProcess (scrutinizer process.go,
not among the provided sources) schedules a process for final results
computation by appending its id under the given block-number key of the
ProcessEnding table. -/
def registerPendingProcess (s : Scrutinizer) (pid : Bytes) (h : Int) : Scrutinizer :=
  { s with storage := setProcessEnding s.storage h (s.storage.processEnding h ++ [pid]) }

/-- Modelled from the spec: addEntity (scrutinizer process.go, not among the
provided sources) records the entity-process association in the Entity table,
incrementing entityCount on first sight of an entity. -/
def addEntity (s : Scrutinizer) (eid pid : Bytes) : Scrutinizer :=
  match s.storage.entity eid with
  | some pids => { s with storage := setEntity s.storage eid (pids ++ [pid]) }
  | none =>
      { s with storage := setEntity s.storage eid [pid], entityCount := s.entityCount + 1 }

/-- The empty tally used when a live-results process is first marked. -/
def emptyProcessVotes : ProcessVotes :=
  List.replicate MaxQuestions (List.replicate MaxOptions 0)

/-- Modelled from the spec: addLiveResultsProcess (scrutinizer process.go, not
among the provided sources) marks a process in the LiveProcess table with an
empty tally, leaving an already present tally untouched. -/
def addLiveResultsProcess (s : Scrutinizer) (pid : Bytes) : Scrutinizer :=
  match s.storage.liveProcess pid with
  | some _ => s
  | none => { s with storage := setLiveProcess s.storage pid emptyProcessVotes }

/-- Increment one cell of a tally row, wrapping as a uint32 does. -/
def incRow : List Nat → Nat → List Nat
  | [], _ => []
  | x :: xs, 0 => ((x + 1) % 2 ^ 32) :: xs
  | x :: xs, o + 1 => x :: incRow xs o

/-- Apply a decoded vote (one chosen option per question) to a tally. -/
def applyVoteToTally : ProcessVotes → List Nat → ProcessVotes
  | tally, [] => tally
  | [], _ :: _ => []
  | row :: rows, v :: vs => incRow row v :: applyVoteToTally rows vs

/-- Modelled from the spec: addLiveResultsVote (scrutinizer process.go, not
among the provided sources) decodes the vote package (decoding of the base64
JSON payload is external and passed in as the decode argument), drops
malformed packages with more than MaxQuestions entries or an option index of
at least MaxOptions, and applies the vote to the LiveProcess tally of its
process; a vote for a process with no live tally is an error. -/
def addLiveResultsVote (decode : String → Option (List Nat)) (s : Scrutinizer)
    (v : Vote) : Except String Scrutinizer :=
  match decode v.VotePackage with
  | none => Except.error ("cannot unmarshal vote package")
  | some votes =>
    if MaxQuestions < votes.length || votes.any (fun o => MaxOptions ≤ o) then
      Except.error ("malformed vote package")
    else
      match s.storage.liveProcess v.ProcessID with
      | none => Except.error ("process not in live results")
      | some tally =>
          Except.ok { s with storage := setLiveProcess s.storage v.ProcessID (applyVoteToTally tally votes) }

/-! ## Scrutinizer event hooks and block lifecycle (scrutinizer.go) -/

/-- OnProcess stores the processID and entityID in the process pool. -/
def onProcess (s : Scrutinizer) (pid eid : Bytes) (_mkroot _mkuri : String) : Scrutinizer :=
  { s with processPool := s.processPool ++ [{ EntityID := eid, ProcessID := pid }] }

/-- OnVote stores the vote in the vote pool if the process has live results
enabled; a failing live-results check is logged and the vote dropped. -/
def onVote (s : Scrutinizer) (v : Vote) : Scrutinizer :=
  match isLiveResultsProcess s v.ProcessID with
  | Except.error _ => s
  | Except.ok isLive => if isLive then { s with votePool := s.votePool ++ [v] } else s

/-- OnCancel does nothing (its body is only a comment in the source). -/
def onCancel (s : Scrutinizer) (_pid : Bytes) : Scrutinizer := s

/-- OnProcessKeys does nothing. -/
def onProcessKeys (s : Scrutinizer) (_pid : Bytes) (_pub _com : String) : Scrutinizer := s

/-- OnRevealKeys fetches the process from the vochain state (a failed fetch is
logged and ignored) and, if all keys have been revealed (KeyIndex below one),
appends the process to the results pool. -/
def onRevealKeys (s : Scrutinizer) (pid : Bytes) (_pub _com : String) : Scrutinizer :=
  match s.vochainProcess pid with
  | none => s
  | some p =>
      if p.KeyIndex < 1 then
        { s with resultsPool := s.resultsPool ++ [{ EntityID := p.EntityID, ProcessID := pid }] }
      else s

/-- Rollback removes the non committed pending operations. -/
def rollback (s : Scrutinizer) : Scrutinizer :=
  { s with votePool := [], processPool := [], resultsPool := [] }

/-- One step of the Commit loop over processPool: add the entity and, when
the process is live results, mark it in the LiveProcess table; an error of
the live-results check is logged and skips only the marking. -/
def commitProcessStep (s : Scrutinizer) (p : ScrutinizerOnProcessData) : Scrutinizer :=
  let s1 := addEntity s p.EntityID p.ProcessID
  match isLiveResultsProcess s1 p.ProcessID with
  | Except.error _ => s1
  | Except.ok isLive => if isLive then addLiveResultsProcess s1 p.ProcessID else s1

/-- The Commit loop over resultsPool: the element at range index i is
registered as pending at block height plus i plus one.  The counter argument
carries the running range index. -/
def registerPendingAll (height : Int) : Scrutinizer → List ScrutinizerOnProcessData → Nat → Scrutinizer
  | s, [], _ => s
  | s, p :: rest, i =>
      registerPendingAll height
        (registerPendingProcess s p.ProcessID (height + ((i : Int) + 1))) rest (i + 1)

/-- One step of the Commit loop over votePool: a failing addLiveResultsVote is
logged and the state kept. -/
def commitVoteStep (decode : String → Option (List Nat)) (s : Scrutinizer) (v : Vote) : Scrutinizer :=
  match addLiveResultsVote decode s v with
  | Except.error _ => s
  | Except.ok s' => s'

/-- Commit is called by the APP when a block is confirmed.  The asynchronous
checkFinishedProcesses task spawned at the top of the Go function only reads
the ProcessEnding entry of the committed height and writes final results; it
is outside this sequential model.  The three buffer loops are modelled in
their source order. -/
def commit (decode : String → Option (List Nat)) (s : Scrutinizer) (height : Int) : Scrutinizer :=
  let s1 := List.foldl commitProcessStep s s.processPool
  let s2 := registerPendingAll height s1 s1.resultsPool 0
  List.foldl (commitVoteStep decode) s2 s2.votePool

/-! ## ABCI request and response shapes

Two BaseApplication variants are present in the source tree: the Amino-codec
application (with the vote cache and a Recheck branch) and the plain-JSON
application.  Both are modelled.  Byte payloads carrying text are modelled as
strings. -/

/-- The kind of a CheckTx request: a fresh mempool check or a recheck after a
commit. -/
inductive CheckTxType where
  | new : CheckTxType
  | recheck : CheckTxType
deriving DecidableEq

/-- An ABCI CheckTx request: raw transaction bytes plus the check kind. -/
structure RequestCheckTx where
  tx : String
  type : CheckTxType
deriving DecidableEq

/-- An ABCI DeliverTx request: raw transaction bytes. -/
structure RequestDeliverTx where
  tx : String
deriving DecidableEq

/-- An ABCI CheckTx response; Data and Info default to empty. -/
structure ResponseCheckTx where
  code : Nat
  data : String := ""
  info : String := ""
deriving DecidableEq

/-- An ABCI DeliverTx response; Data and Info default to empty. -/
structure ResponseDeliverTx where
  code : Nat
  data : String := ""
  info : String := ""
deriving DecidableEq

/-- An ABCI Query response; Info and Value default to empty. -/
structure ResponseQuery where
  code : Nat
  info : String := ""
  value : String := ""
deriving DecidableEq

/-- QueryData of the types package: the decoded JSON body of a Query request.
The Go field From is renamed from' because from is reserved in Lean. -/
structure QueryData where
  method : String
  processID : String
  nullifier : String
  from' : Int
  listSize : Int
  timestamp : Int
  processType : String
deriving DecidableEq

/-! ## The Amino-codec BaseApplication (app variant with vote cache)

UnmarshalTx and AddTx live in transaction files outside the provided source
snapshot, so CheckTx and DeliverTx are parametrised by them: unmarshal decodes
the raw bytes into a transaction of some type τ, and addTx validates (and on
deliver applies) it, returning response data or an error whose message is a
string. -/

/-- CheckTx of the Amino-codec application.  A Recheck request returns code 0
with the still-nil data before any decoding; otherwise the transaction is
decoded and validated without applying it, and any error is returned as code 1
with the error message as data. -/
def CheckTxAmino {τ : Type} (unmarshal : String → Except String τ)
    (addTx : τ → Except String String) (req : RequestCheckTx) : ResponseCheckTx :=
  if req.type = CheckTxType.recheck then { code := 0, data := "" }
  else
    match unmarshal req.tx with
    | Except.error e => { code := 1, data := e }
    | Except.ok tx =>
      match addTx tx with
      | Except.error e => { code := 1, data := e }
      | Except.ok d => { code := 0, data := d }

/-- DeliverTx of the Amino-codec application: decode, then validate and apply;
any error is returned as code 1 with the error message as data. -/
def DeliverTxAmino {τ : Type} (unmarshal : String → Except String τ)
    (addTx : τ → Except String String) (req : RequestDeliverTx) : ResponseDeliverTx :=
  match unmarshal req.tx with
  | Except.error e => { code := 1, data := e }
  | Except.ok tx =>
    match addTx tx with
    | Except.error e => { code := 1, data := e }
    | Except.ok d => { code := 0, data := d }

/-- Query of the Amino-codec application: not implemented, every request gets
an empty response (code 0). -/
def QueryAmino (_req : Except String QueryData) : ResponseQuery :=
  { code := 0 }

/-! ## The plain-JSON BaseApplication

ValidateTx and ValidateAndDeliverTx live outside the provided source snapshot
and are passed as parameters; the vochain state behind Query is modelled as a
record of its read functions. -/

/-- CheckTx of the JSON application: every request is validated, the check
kind is ignored; a validation error is returned as code 1 with the message in
Info. -/
def CheckTxJson (validateTx : String → Except String Unit) (req : RequestCheckTx) : ResponseCheckTx :=
  match validateTx req.tx with
  | Except.error e => { code := 1, info := e }
  | Except.ok _ => { code := 0 }

/-- DeliverTx of the JSON application: a validation error is returned as a
bare code 1 carrying no message. -/
def DeliverTxJson (validateAndDeliverTx : String → Except String Unit)
    (req : RequestDeliverTx) : ResponseDeliverTx :=
  match validateAndDeliverTx req.tx with
  | Except.error _ => { code := 1 }
  | Except.ok _ => { code := 0 }

/-- The read interface of the JSON application state used by Query:
envelope lookup by the processId-underscore-nullifier key, vote count,
current height bytes, and the two codec marshal calls appearing in Query. -/
structure VochainStateReads where
  getEnvelope : String → Except String Vote
  countVotes : String → Int
  getHeight : String
  marshalVotePackage : String → Except String String
  marshalVoteCount : Int → Except String String

/-- Query of the JSON application: decodes the request (the decoded result or
the JSON error is the reqData argument) and dispatches on the method string
exactly as the source switch does. -/
def QueryJson (st : VochainStateReads) (reqData : Except String QueryData) : ResponseQuery :=
  match reqData with
  | Except.error e => { code := 1, info := "cannot unmarshal request in app query: " ++ e }
  | Except.ok d =>
    if d.method = "getEnvelopeStatus" then
      match st.getEnvelope (d.processID ++ "_" ++ d.nullifier) with
      | Except.error _ => { code := 1 }
      | Except.ok _ => { code := 0 }
    else if d.method = "getEnvelope" then
      match st.getEnvelope (d.processID ++ "_" ++ d.nullifier) with
      | Except.error e => { code := 1, info := "cannot get envelope: " ++ e }
      | Except.ok env =>
        match st.marshalVotePackage env.VotePackage with
        | Except.error _ => { code := 1, info := "cannot marshal processBytes" }
        | Except.ok b => { code := 0, value := b }
    else if d.method = "getEnvelopeHeight" then
      match st.marshalVoteCount (st.countVotes d.processID) with
      | Except.error _ => { code := 1, info := "cannot marshal votes count bytes" }
      | Except.ok b => { code := 0, value := b }
    else if d.method = "getBlockHeight" then { code := 0, value := st.getHeight }
    else if d.method = "getProcessList" then { code := 1, info := "not implemented" }
    else if d.method = "getEnvelopeList" then { code := 1, info := "not implemented" }
    else { code := 1, info := "undefined query method" }

/-! ## The scrutinizer List routine over the Badger store

The Badger iterator enumerates the stored keys in increasing byte-string
order; it is modelled by a sorted list of keys.  Seek positions the iterator
at the first key not below the target, ValidForPrefix keeps iterating while
the current key extends the prefix. -/

/-- Strict byte-string order on keys, as Badger compares them: shorter is
smaller on ties, otherwise the first differing byte decides. -/
def bytesLt : Bytes → Bytes → Bool
  | _, [] => false
  | [], _ :: _ => true
  | a :: as, b :: bs => if a < b then true else if b < a then false else bytesLt as bs

/-- Whether the first byte string is an initial segment of the second
(the ValidForPrefix check of the iterator). -/
def hasPref : Bytes → Bytes → Bool
  | [], _ => true
  | _ :: _, [] => false
  | p :: ps, k :: ks => p = k && hasPref ps ks

/-- The iteration loop of Scrutinizer.List, after the initial Seek: while the
current key extends the prefix, strip the prefix, skip the key equal to the
from argument (without consuming max), append the stripped key, and stop once
the decremented max has fallen below one. -/
def listLoop (max : Int) (fr pre : Bytes) : List Bytes → List Bytes
  | [] => []
  | k :: rest =>
    if hasPref pre k then
      let key := k.drop pre.length
      if 0 < fr.length ∧ key = fr then listLoop max fr pre rest
      else if max - 1 < 1 then [key]
      else key :: listLoop (max - 1) fr pre rest
    else []

/-- Scrutinizer.List: returns the keys matching the prefix, stripped of it,
from the seek position for prefix plus from onward, at most (roughly) max of
them.  The keys argument is the sorted key set of the Badger store. -/
def scrutinizerList (max : Int) (fr pre : Bytes) (keys : List Bytes) : List Bytes :=
  listLoop max fr pre (keys.dropWhile (fun k => bytesLt k (pre ++ fr)))

/-- The max argument NewScrutinizer passes to List: the largest int64. -/
def maxInt64 : Int := 2 ^ 63 - 1

/-- Modelled from the spec: the one-byte key prefix of the Entity table
(types.ScrutinizerEntityPrefix is defined in a constants file not among the
provided sources; the spec names the prefix E). -/
def entityPrefByte : Nat := 69

/-- The entityCount initialisation of NewScrutinizer: the length of the List
result for the entity prefix with empty from and the largest int64 as max,
over the sorted key set of the scrutinizer store. -/
def newScrutinizerEntityCount (keys : List Bytes) : Int :=
  Int.ofNat (scrutinizerList maxInt64 [] [entityPrefByte] keys).length

/-! ## Concrete fixtures used by witness theorems -/

/-- A scrutinizer store with nothing in it. -/
def emptyStorage : ScrutStorage :=
  { processEnding := fun _ => [], liveProcess := fun _ => none,
    entity := fun _ => none, results := fun _ => none }

/-- A concrete encrypted-poll process whose keys are all revealed. -/
def procRevealedC : Process :=
  { Canceled := false, CommitmentKeys := [], EncryptionPrivateKeys := [],
    EncryptionPublicKeys := [], EntityID := [5], KeyIndex := 0, MkRoot := "",
    NumberOfBlocks := 10, Paused := false, RevealKeys := [], StartBlock := 1,
    type := EncryptedPoll }

/-- A concrete poll-vote process (live results, not encrypted). -/
def procPollC : Process :=
  { Canceled := false, CommitmentKeys := [], EncryptionPrivateKeys := [],
    EncryptionPublicKeys := [], EntityID := [5], KeyIndex := 0, MkRoot := "",
    NumberOfBlocks := 10, Paused := false, RevealKeys := [], StartBlock := 1,
    type := PollVote }

/-- A scrutinizer whose vochain state holds the revealed process under pid 7. -/
def sRevealC : Scrutinizer :=
  { vochainProcess := fun pid => if pid = [7] then some procRevealedC else none,
    storage := emptyStorage, votePool := [], processPool := [], resultsPool := [],
    entityCount := 0 }

/-- A scrutinizer whose vochain state holds a poll-vote process everywhere. -/
def sVoteC : Scrutinizer :=
  { vochainProcess := fun _ => some procPollC,
    storage := emptyStorage, votePool := [], processPool := [], resultsPool := [],
    entityCount := 0 }

/-- A concrete vote. -/
def voteC : Vote :=
  { EncryptionKeyIndexes := [], Height := 0, Nullifier := [1], ProcessID := [2],
    VotePackage := "" }

/-! ## Claims about the scrutinizer event hooks -/

/-- C8: for every process, the derived predicates RequireKeys and IsEncrypted
are both true exactly when the process type is encrypted-poll or snark-vote,
and both false for poll-vote and petition-sign. -/
theorem requireKeys_isEncrypted_iff_type (p : Process) :
    ((Process.RequireKeys p = true ∧ Process.IsEncrypted p = true) ↔
      (p.type = EncryptedPoll ∨ p.type = SnarkVote)) ∧
    ((p.type = PollVote ∨ p.type = PetitionSign) →
      Process.RequireKeys p = false ∧ Process.IsEncrypted p = false) := by
  simp only [Process.RequireKeys, Process.IsEncrypted, ProcessRequireKeys,
    ProcessIsEncrypted, goBoolMapGet, PollVote, PetitionSign, EncryptedPoll, SnarkVote]
  split_ifs <;> simp_all

/-- Witness for C8: the concrete encrypted-poll process has both predicates
true, the concrete poll-vote process has both false. -/
theorem requireKeys_isEncrypted_iff_type_witness :
    (Process.RequireKeys procRevealedC = true ∧ Process.IsEncrypted procRevealedC = true) ∧
    (Process.RequireKeys procPollC = false ∧ Process.IsEncrypted procPollC = false) :=
  ⟨(requireKeys_isEncrypted_iff_type procRevealedC).1.mpr (Or.inl rfl),
   (requireKeys_isEncrypted_iff_type procPollC).2 (Or.inl rfl)⟩

/-- C9: Rollback resets the three per-block buffers to empty and leaves the
persistent store and the entity count unchanged. -/
theorem rollback_resets_pools (s : Scrutinizer) :
    (rollback s).votePool = [] ∧ (rollback s).processPool = [] ∧
    (rollback s).resultsPool = [] ∧ (rollback s).storage = s.storage ∧
    (rollback s).entityCount = s.entityCount :=
  ⟨rfl, rfl, rfl, rfl, rfl⟩

/-- C10: OnCancel leaves the scrutinizer state entirely unchanged; in
particular a canceled live-results process keeps its partial tally in the
LiveProcess table. -/
theorem onCancel_noop (s : Scrutinizer) (pid : Bytes) :
    onCancel s pid = s ∧ (onCancel s pid).storage.liveProcess = s.storage.liveProcess :=
  ⟨rfl, rfl⟩

/-- C2: when the process fetch succeeds, OnRevealKeys appends the process to
the results pool exactly when its KeyIndex is below one, and changes nothing
when KeyIndex is at least one. -/
theorem onRevealKeys_appends_iff_allKeysRevealed (s : Scrutinizer) (pid : Bytes)
    (pub com : String) (p : Process) (hp : s.vochainProcess pid = some p) :
    ((onRevealKeys s pid pub com).resultsPool =
      (if p.KeyIndex < 1 then
        s.resultsPool ++ [{ EntityID := p.EntityID, ProcessID := pid }]
       else s.resultsPool)) ∧
    (¬ p.KeyIndex < 1 → onRevealKeys s pid pub com = s) := by
  constructor
  · by_cases h : p.KeyIndex < 1
    · simp [onRevealKeys, hp, h]
    · simp [onRevealKeys, hp, h]
  · intro h
    simp [onRevealKeys, hp, h]

/-- Witness for C2: on the concrete state, revealing the last key of process 7
(KeyIndex zero) appends it to the results pool. -/
theorem onRevealKeys_appends_iff_allKeysRevealed_witness :
    sRevealC.vochainProcess [7] = some procRevealedC ∧
    (onRevealKeys sRevealC [7] ("") ("")).resultsPool =
      (if procRevealedC.KeyIndex < 1 then
        sRevealC.resultsPool ++ [{ EntityID := procRevealedC.EntityID, ProcessID := [7] }]
       else sRevealC.resultsPool) :=
  ⟨rfl, (onRevealKeys_appends_iff_allKeysRevealed sRevealC [7] ("") ("") procRevealedC rfl).1⟩

/-- C3: OnVote appends the vote to the vote pool exactly when the live-results
check answers true; a false answer or a failed check leaves the state
unchanged. -/
theorem onVote_buffers_iff_liveResults (s : Scrutinizer) (v : Vote) :
    (isLiveResultsProcess s v.ProcessID = Except.ok true →
      onVote s v = { s with votePool := s.votePool ++ [v] }) ∧
    (isLiveResultsProcess s v.ProcessID = Except.ok false → onVote s v = s) ∧
    (∀ e, isLiveResultsProcess s v.ProcessID = Except.error e → onVote s v = s) ∧
    ((onVote s v).votePool ≠ s.votePool →
      isLiveResultsProcess s v.ProcessID = Except.ok true) := by
  refine ⟨?_, ?_, ?_, ?_⟩
  · intro h; simp [onVote, h]
  · intro h; simp [onVote, h]
  · intro e h; simp [onVote, h]
  · intro h
    rcases hE : isLiveResultsProcess s v.ProcessID with e | b
    · exact absurd (by simp [onVote, hE]) h
    · cases b
      · exact absurd (by simp [onVote, hE]) h
      · rfl

/-- Witness for C3: on the concrete state whose process is a poll-vote, the
live check answers true and the vote is buffered. -/
theorem onVote_buffers_iff_liveResults_witness :
    isLiveResultsProcess sVoteC voteC.ProcessID = Except.ok true ∧
    onVote sVoteC voteC = { sVoteC with votePool := sVoteC.votePool ++ [voteC] } :=
  ⟨rfl, (onVote_buffers_iff_liveResults sVoteC voteC).1 rfl⟩

/-! ## Frame lemmas for the Commit loops -/

/-- addEntity touches only the Entity table and the entity count. -/
lemma addEntity_frame (s : Scrutinizer) (eid pid : Bytes) :
    (addEntity s eid pid).storage.processEnding = s.storage.processEnding ∧
    (addEntity s eid pid).resultsPool = s.resultsPool ∧
    (addEntity s eid pid).votePool = s.votePool := by
  rcases h : s.storage.entity eid with _ | pids <;> simp [addEntity, h, setEntity]

/-- addLiveResultsProcess touches only the LiveProcess table. -/
lemma addLiveResultsProcess_frame (s : Scrutinizer) (pid : Bytes) :
    (addLiveResultsProcess s pid).storage.processEnding = s.storage.processEnding ∧
    (addLiveResultsProcess s pid).resultsPool = s.resultsPool ∧
    (addLiveResultsProcess s pid).votePool = s.votePool := by
  rcases h : s.storage.liveProcess pid with _ | tally <;>
    simp [addLiveResultsProcess, h, setLiveProcess]

/-- One step of the processPool loop leaves the ProcessEnding table and the
other two pools unchanged. -/
lemma commitProcessStep_frame (s : Scrutinizer) (p : ScrutinizerOnProcessData) :
    (commitProcessStep s p).storage.processEnding = s.storage.processEnding ∧
    (commitProcessStep s p).resultsPool = s.resultsPool ∧
    (commitProcessStep s p).votePool = s.votePool := by
  have hA := addEntity_frame s p.EntityID p.ProcessID
  rcases hE : isLiveResultsProcess (addEntity s p.EntityID p.ProcessID) p.ProcessID with e | b
  · simpa [commitProcessStep, hE] using hA
  · cases b
    · simpa [commitProcessStep, hE] using hA
    · have hL := addLiveResultsProcess_frame (addEntity s p.EntityID p.ProcessID) p.ProcessID
      refine ⟨?_, ?_, ?_⟩ <;> simp [commitProcessStep, hE, hL.1, hL.2.1, hL.2.2,
        hA.1, hA.2.1, hA.2.2]

/-- The whole processPool loop leaves the ProcessEnding table and the other
two pools unchanged. -/
lemma foldl_commitProcessStep_frame (l : List ScrutinizerOnProcessData) :
    ∀ s : Scrutinizer,
    (List.foldl commitProcessStep s l).storage.processEnding = s.storage.processEnding ∧
    (List.foldl commitProcessStep s l).resultsPool = s.resultsPool ∧
    (List.foldl commitProcessStep s l).votePool = s.votePool := by
  induction l with
  | nil => intro s; exact ⟨rfl, rfl, rfl⟩
  | cons p rest ih =>
      intro s
      have h1 := commitProcessStep_frame s p
      have h2 := ih (commitProcessStep s p)
      simp only [List.foldl_cons]
      exact ⟨h2.1.trans h1.1, h2.2.1.trans h1.2.1, h2.2.2.trans h1.2.2⟩

/-- One step of the votePool loop leaves the ProcessEnding table unchanged. -/
lemma commitVoteStep_processEnding (decode : String → Option (List Nat))
    (s : Scrutinizer) (v : Vote) :
    (commitVoteStep decode s v).storage.processEnding = s.storage.processEnding := by
  unfold commitVoteStep addLiveResultsVote
  rcases hd : decode v.VotePackage with _ | votes
  · simp [hd]
  · simp only [hd]
    split_ifs with hb
    · rfl
    · rcases hl : s.storage.liveProcess v.ProcessID with _ | tally <;>
        simp [hl, setLiveProcess]

/-- The whole votePool loop leaves the ProcessEnding table unchanged. -/
lemma foldl_commitVoteStep_processEnding (decode : String → Option (List Nat))
    (l : List Vote) : ∀ s : Scrutinizer,
    (List.foldl (commitVoteStep decode) s l).storage.processEnding =
      s.storage.processEnding := by
  induction l with
  | nil => intro s; rfl
  | cons v rest ih =>
      intro s
      simp only [List.foldl_cons]
      exact (ih (commitVoteStep decode s v)).trans (commitVoteStep_processEnding decode s v)

/-- Pointwise description of a single pending-process registration. -/
lemma registerPendingProcess_processEnding (s : Scrutinizer) (pid : Bytes) (h b : Int) :
    (registerPendingProcess s pid h).storage.processEnding b =
      if b = h then s.storage.processEnding h ++ [pid] else s.storage.processEnding b := rfl

/-- Keys strictly below the next registration key are never touched by the
resultsPool loop. -/
lemma registerPendingAll_lt (height : Int) (pool : List ScrutinizerOnProcessData) :
    ∀ (s : Scrutinizer) (i0 : Nat) (b : Int), b < height + (i0 : Int) + 1 →
    (registerPendingAll height s pool i0).storage.processEnding b =
      s.storage.processEnding b := by
  induction pool with
  | nil => intro s i0 b hb; rfl
  | cons p rest ih =>
      intro s i0 b hb
      simp only [registerPendingAll]
      rw [ih _ (i0 + 1) b (by push_cast; omega)]
      rw [registerPendingProcess_processEnding]
      rw [if_neg (by omega)]

/-- The element at range index i of the resultsPool loop is appended to the
ProcessEnding entry of block height plus start index plus i plus one, and is
the only change at that key. -/
lemma registerPendingAll_at (height : Int) (pool : List ScrutinizerOnProcessData) :
    ∀ (s : Scrutinizer) (i0 i : Nat) (h : i < pool.length),
    (registerPendingAll height s pool i0).storage.processEnding
        (height + (i0 : Int) + (i : Int) + 1) =
      s.storage.processEnding (height + (i0 : Int) + (i : Int) + 1) ++
        [(pool.get ⟨i, h⟩).ProcessID] := by
  induction pool with
  | nil => intro s i0 i h; exact absurd h (Nat.not_lt_zero i)
  | cons p rest ih =>
      intro s i0 i h
      cases i with
      | zero =>
          simp only [registerPendingAll]
          rw [registerPendingAll_lt height rest _ (i0 + 1) _ (by push_cast; omega)]
          rw [registerPendingProcess_processEnding]
          rw [if_pos (by push_cast; ring)]
          have hk : height + ((i0 : Int) + 1) = height + (i0 : Int) + ((0 : Nat) : Int) + 1 := by
            push_cast; ring
          rw [hk]
          rfl
      | succ i' =>
          simp only [registerPendingAll]
          have hk : height + (i0 : Int) + ((i' + 1 : Nat) : Int) + 1 =
              height + ((i0 + 1 : Nat) : Int) + ((i' : Nat) : Int) + 1 := by
            push_cast; ring
          rw [hk]
          rw [ih _ (i0 + 1) i' (Nat.lt_of_succ_lt_succ h)]
          rw [registerPendingProcess_processEnding]
          rw [if_neg (by push_cast; omega)]
          rfl

/-- C1: Commit at a block height registers the element at index i of the
results pool as pending for final-results computation at block height plus i
plus one, appending exactly that process id to the ProcessEnding entry of
that block. -/
theorem commit_registers_resultsPool_staggered (decode : String → Option (List Nat))
    (s : Scrutinizer) (height : Int) (i : Nat) (h : i < s.resultsPool.length) :
    (commit decode s height).storage.processEnding (height + (i : Int) + 1) =
      s.storage.processEnding (height + (i : Int) + 1) ++
        [(s.resultsPool.get ⟨i, h⟩).ProcessID] := by
  have hf := foldl_commitProcessStep_frame s.processPool s
  simp only [commit]
  rw [foldl_commitVoteStep_processEnding]
  rw [hf.2.1]
  have hkey : height + (i : Int) + 1 = height + ((0 : Nat) : Int) + (i : Int) + 1 := by
    push_cast; ring
  rw [hkey]
  rw [registerPendingAll_at height s.resultsPool _ 0 i h]
  rw [hf.1]

/-- A concrete scrutinizer with one element in the results pool. -/
def sCommitC : Scrutinizer :=
  { vochainProcess := fun _ => none, storage := emptyStorage, votePool := [],
    processPool := [], resultsPool := [{ EntityID := [1], ProcessID := [9, 9] }],
    entityCount := 0 }

/-- A decoder that fails on every package (commit registration is independent
of it). -/
def decodeNoneC : String → Option (List Nat) := fun _ => none

/-- Witness for C1: committing the concrete scrutinizer at height 3 registers
its single results-pool element at block 4. -/
theorem commit_registers_resultsPool_staggered_witness :
    0 < sCommitC.resultsPool.length ∧
    (commit decodeNoneC sCommitC 3).storage.processEnding (3 + ((0 : Nat) : Int) + 1) =
      sCommitC.storage.processEnding (3 + ((0 : Nat) : Int) + 1) ++
        [(sCommitC.resultsPool.get ⟨0, by decide⟩).ProcessID] :=
  ⟨by decide, commit_registers_resultsPool_staggered decodeNoneC sCommitC 3 0 (by decide)⟩

/-! ## Claims about the two BaseApplication variants -/

/-- Modelled from the spec: ValidateTx (the transaction validation called by
the JSON application, living in source files outside the provided snapshot)
rejects transactions that do not decode to a recognized type; it is modelled
here on one representative malformed input. -/
def validateTxModel : String → Except String Unit :=
  fun tx => if tx = "bogus" then Except.error ("MalformedTx") else Except.ok ()

/-- Modelled from the spec: ValidateAndDeliverTx (validation plus state
application for the JSON application, outside the provided snapshot) rejects
the same malformed input. -/
def validateAndDeliverTxModel : String → Except String Unit :=
  fun tx => if tx = "bogus" then Except.error ("MalformedTx") else Except.ok ()

/-- Counterexample to C5 as stated: the JSON application's CheckTx ignores
the Recheck type and re-validates; on a malformed transaction a Recheck
request is rejected with code 1 instead of being accepted unconditionally. -/
theorem checkTxJson_recheck_validates :
    (CheckTxJson validateTxModel { tx := "bogus", type := CheckTxType.recheck }).code ≠ 0 ∧
    CheckTxJson validateTxModel { tx := "bogus", type := CheckTxType.recheck } =
      { code := 1, info := "MalformedTx" } := by
  refine ⟨?_, ?_⟩ <;> decide

/-- C5 amended: the Amino-codec application's CheckTx answers a Recheck
request with code 0 and empty data regardless of the decoder and validator
(so no decoding or validation can influence it), while the JSON application's
CheckTx validates every request, Recheck included, and surfaces a validation
error as code 1. -/
theorem checkTx_recheck_amended (τ : Type) (unmarshal : String → Except String τ)
    (addTx : τ → Except String String) (tx : String)
    (validate : String → Except String Unit) (tx2 e : String)
    (hv : validate tx2 = Except.error e) :
    CheckTxAmino unmarshal addTx { tx := tx, type := CheckTxType.recheck } =
      { code := 0, data := "" } ∧
    CheckTxJson validate { tx := tx2, type := CheckTxType.recheck } =
      { code := 1, info := e } := by
  constructor
  · simp [CheckTxAmino]
  · simp [CheckTxJson, hv]

/-- Witness for the amended C5, at a concrete decoder, validator and
transaction. -/
theorem checkTx_recheck_amended_witness :
    validateTxModel ("bogus") = Except.error ("MalformedTx") ∧
    CheckTxAmino (fun t => Except.ok t) (fun _ => Except.ok ("")) { tx := "x", type := CheckTxType.recheck } =
      { code := 0, data := "" } ∧
    CheckTxJson validateTxModel { tx := "bogus", type := CheckTxType.recheck } =
      { code := 1, info := "MalformedTx" } :=
  ⟨rfl,
   (checkTx_recheck_amended String (fun t => Except.ok t) (fun _ => Except.ok (""))
      ("x") validateTxModel ("bogus") ("MalformedTx") rfl).1,
   (checkTx_recheck_amended String (fun t => Except.ok t) (fun _ => Except.ok (""))
      ("x") validateTxModel ("bogus") ("MalformedTx") rfl).2⟩

/-- Counterexample to C6 as stated: the JSON application's DeliverTx rejects
a transaction failing validation with code 1 but carries no human-readable
message at all (both Data and Info are empty). -/
theorem deliverTxJson_rejection_no_message :
    (DeliverTxJson validateAndDeliverTxModel { tx := "bogus" }).code = 1 ∧
    (DeliverTxJson validateAndDeliverTxModel { tx := "bogus" }).data = "" ∧
    (DeliverTxJson validateAndDeliverTxModel { tx := "bogus" }).info = "" := by
  refine ⟨?_, ?_, ?_⟩ <;> decide

/-- C6 amended: every transaction rejected during CheckTx or DeliverTx gets a
non-zero response code; the Amino-codec application (both CheckTx and
DeliverTx, for decode failures and for validation failures) and the JSON
application's CheckTx also carry the error message, but the JSON
application's DeliverTx returns a bare code 1 with no message. -/
theorem rejection_reporting_amended (τ : Type)
    (um : String → Except String τ) (at' : τ → Except String String)
    (validate vad : String → Except String Unit)
    (tx : String) (t : τ) (e : String) :
    (um tx = Except.error e →
      CheckTxAmino um at' { tx := tx, type := CheckTxType.new } = { code := 1, data := e } ∧
      DeliverTxAmino um at' { tx := tx } = { code := 1, data := e }) ∧
    (um tx = Except.ok t → at' t = Except.error e →
      CheckTxAmino um at' { tx := tx, type := CheckTxType.new } = { code := 1, data := e } ∧
      DeliverTxAmino um at' { tx := tx } = { code := 1, data := e }) ∧
    (validate tx = Except.error e →
      CheckTxJson validate { tx := tx, type := CheckTxType.new } = { code := 1, info := e }) ∧
    (vad tx = Except.error e →
      DeliverTxJson vad { tx := tx } = { code := 1 }) := by
  refine ⟨?_, ?_, ?_, ?_⟩
  · intro h; exact ⟨by simp [CheckTxAmino, h], by simp [DeliverTxAmino, h]⟩
  · intro h1 h2; exact ⟨by simp [CheckTxAmino, h1, h2], by simp [DeliverTxAmino, h1, h2]⟩
  · intro h; simp [CheckTxJson, h]
  · intro h; simp [DeliverTxJson, h]

/-- A decoder that rejects everything, and validators used by the C6
witness. -/
def umFailC : String → Except String Unit := fun _ => Except.error ("MalformedTx")

/-- A decoder that accepts everything (witness fixture). -/
def umOkC : String → Except String Unit := fun _ => Except.ok ()

/-- A transaction application step that rejects everything (witness
fixture). -/
def addTxFailC : Unit → Except String String := fun _ => Except.error ("BadSignature")

/-- A transaction application step that accepts everything (witness
fixture). -/
def addTxOkC : Unit → Except String String := fun _ => Except.ok ("")

/-- Witness for the amended C6, at concrete decoders, validators and
transactions. -/
theorem rejection_reporting_amended_witness :
    CheckTxAmino umFailC addTxOkC { tx := "bogus", type := CheckTxType.new } =
      { code := 1, data := "MalformedTx" } ∧
    DeliverTxAmino umOkC addTxFailC { tx := "bogus" } = { code := 1, data := "BadSignature" } ∧
    CheckTxJson validateTxModel { tx := "bogus", type := CheckTxType.new } =
      { code := 1, info := "MalformedTx" } ∧
    DeliverTxJson validateAndDeliverTxModel { tx := "bogus" } = { code := 1 } :=
  ⟨((rejection_reporting_amended Unit umFailC addTxOkC validateTxModel
      validateAndDeliverTxModel ("bogus") () ("MalformedTx")).1 rfl).1,
   ((rejection_reporting_amended Unit umOkC addTxFailC validateTxModel
      validateAndDeliverTxModel ("bogus") () ("BadSignature")).2.1 rfl rfl).2,
   (rejection_reporting_amended Unit umOkC addTxOkC validateTxModel
      validateAndDeliverTxModel ("bogus") () ("MalformedTx")).2.2.1 rfl,
   (rejection_reporting_amended Unit umOkC addTxOkC validateTxModel
      validateAndDeliverTxModel ("bogus") () ("MalformedTx")).2.2.2 rfl⟩

/-- A Query request naming an envelope (by process id and nullifier) that no
state contains. -/
def missingEnvelopeQueryC : QueryData :=
  { method := "getEnvelopeStatus", processID := "aa01", nullifier := "ff02",
    from' := 0, listSize := 0, timestamp := 0, processType := "" }

/-- Counterexample to C4 as stated: the Amino-codec application's Query is
unimplemented and answers a status query for a missing envelope with code 0
instead of a non-zero error code. -/
theorem queryAmino_missing_envelope_code_zero :
    (QueryAmino (Except.ok missingEnvelopeQueryC)).code = 0 := rfl

/-- A state with no envelopes at all (also used to discriminate the dispatch
branches from the undefined-method branch). -/
def stReadsC : VochainStateReads :=
  { getEnvelope := fun _ => Except.error ("not found"), countVotes := fun _ => 0,
    getHeight := "", marshalVotePackage := fun _ => Except.ok (""),
    marshalVoteCount := fun _ => Except.ok ("") }

/-- C4 amended: the JSON application's Query dispatches exactly the six
read-only methods (any other method yields code 1 with the undefined query
method info), requests for a missing envelope return a non-zero code, while
the Amino-codec application's Query returns code 0 with an empty payload for
every request. -/
theorem query_dispatch_amended (st : VochainStateReads) (d : QueryData) (e : String) :
    ((∀ st' : VochainStateReads, QueryJson st' (Except.ok d) =
        { code := 1, info := "undefined query method" }) ↔
      ¬(d.method = "getEnvelopeStatus" ∨ d.method = "getEnvelope" ∨
        d.method = "getEnvelopeHeight" ∨ d.method = "getBlockHeight" ∨
        d.method = "getProcessList" ∨ d.method = "getEnvelopeList")) ∧
    (d.method = "getEnvelopeStatus" →
      st.getEnvelope (d.processID ++ "_" ++ d.nullifier) = Except.error e →
      (QueryJson st (Except.ok d)).code = 1) ∧
    (d.method = "getEnvelope" →
      st.getEnvelope (d.processID ++ "_" ++ d.nullifier) = Except.error e →
      (QueryJson st (Except.ok d)).code = 1) ∧
    (∀ req, QueryAmino req = { code := 0 }) := by
  refine ⟨⟨?_, ?_⟩, ?_, ?_, fun req => rfl⟩
  · intro hEq hOr
    have h0 := hEq stReadsC
    rcases hOr with h | h | h | h | h | h <;>
      (simp [QueryJson, h, stReadsC] at h0; try exact absurd h0 (by decide))
  · intro hNe st'
    push_neg at hNe
    obtain ⟨h1, h2, h3, h4, h5, h6⟩ := hNe
    simp [QueryJson, h1, h2, h3, h4, h5, h6]
  · intro hm hE
    simp [QueryJson, hm, hE]
  · intro hm hE
    simp [QueryJson, hm, hE]

/-- A Query request with a method outside the dispatch table (witness
fixture). -/
def unknownQueryC : QueryData :=
  { method := "bogusMethod", processID := "", nullifier := "", from' := 0,
    listSize := 0, timestamp := 0, processType := "" }

/-- Witness for the amended C4: an unknown method is rejected as undefined, a
status query for a missing envelope gets code 1, and the Amino Query returns
code 0 on the same request. -/
theorem query_dispatch_amended_witness :
    QueryJson stReadsC (Except.ok unknownQueryC) =
      { code := 1, info := "undefined query method" } ∧
    (QueryJson stReadsC (Except.ok missingEnvelopeQueryC)).code = 1 ∧
    QueryAmino (Except.ok missingEnvelopeQueryC) = { code := 0 } :=
  ⟨(query_dispatch_amended stReadsC unknownQueryC ("not found")).1.mpr (by decide) stReadsC,
   (query_dispatch_amended stReadsC missingEnvelopeQueryC ("not found")).2.1 rfl rfl,
   (query_dispatch_amended stReadsC missingEnvelopeQueryC ("not found")).2.2.2
     (Except.ok missingEnvelopeQueryC)⟩

/-! ## C7: the entityCount initialisation of NewScrutinizer -/

/-- Nothing is below the empty byte string. -/
lemma bytesLt_nil_right (k : Bytes) : bytesLt k [] = false := by
  cases k <;> rfl

/-- Head-to-head unfolding of the byte-string order. -/
lemma bytesLt_cons_cons (a b : Nat) (as bs : Bytes) :
    bytesLt (a :: as) (b :: bs) =
      if a < b then true else if b < a then false else bytesLt as bs := rfl

/-- A one-byte prefix check only looks at the head byte. -/
lemma hasPref_single_cons (e c : Nat) (t : Bytes) :
    hasPref [e] (c :: t) = decide (e = c) := by
  simp [hasPref]

/-- An order comparison between nonempty keys bounds the head bytes. -/
lemma bytesLt_head_le (c c' : Nat) (t t' : Bytes)
    (h : bytesLt (c :: t) (c' :: t') = true) : c ≤ c' := by
  by_contra h'
  push_neg at h'
  rw [bytesLt_cons_cons, if_neg (by omega), if_pos h'] at h
  exact absurd h (by simp)

/-- A key not below the one-byte string has at least that head byte. -/
lemma bytesLt_single_head_ge (e c : Nat) (t : Bytes)
    (h : bytesLt (c :: t) [e] = false) : e ≤ c := by
  by_contra h'
  push_neg at h'
  rw [bytesLt_cons_cons, if_pos h'] at h
  exact absurd h (by simp)

/-- A key strictly below the one-byte prefix string does not extend the
prefix. -/
lemma lt_single_not_pref (e : Nat) (k : Bytes) (h : bytesLt k [e] = true) :
    hasPref [e] k = false := by
  cases k with
  | nil => rfl
  | cons c t =>
      rw [hasPref_single_cons]
      have hce : c < e := by
        by_contra hc
        push_neg at hc
        rw [bytesLt_cons_cons, if_neg (by omega)] at h
        by_cases he : e < c
        · rw [if_pos he] at h
          exact absurd h (by simp)
        · rw [if_neg he, bytesLt_nil_right] at h
          exact absurd h (by simp)
      simp
      omega

/-- Keys at or above the one-byte prefix string stay there upward. -/
lemma ge_single_trans (e : Nat) (k k' : Bytes) (hk : bytesLt k [e] = false)
    (hlt : bytesLt k k' = true) : bytesLt k' [e] = false := by
  cases k with
  | nil => simp [bytesLt] at hk
  | cons c t =>
      cases k' with
      | nil =>
          rw [bytesLt_nil_right] at hlt
          exact absurd hlt (by simp)
      | cons c' t' =>
          have hec : e ≤ c := bytesLt_single_head_ge e c t hk
          have hcc : c ≤ c' := bytesLt_head_le c c' t t' hlt
          rw [bytesLt_cons_cons, if_neg (by omega)]
          by_cases he : e < c'
          · rw [if_pos he]
          · rw [if_neg he]
            exact bytesLt_nil_right t'

/-- Above a key that is at or past the prefix range but does not extend the
prefix, no key extends the prefix. -/
lemma ge_not_pref_trans (e : Nat) (k k' : Bytes) (hge : bytesLt k [e] = false)
    (hnp : hasPref [e] k = false) (hlt : bytesLt k k' = true) :
    hasPref [e] k' = false := by
  cases k with
  | nil => simp [bytesLt] at hge
  | cons c t =>
      cases k' with
      | nil =>
          rw [bytesLt_nil_right] at hlt
          exact absurd hlt (by simp)
      | cons c' t' =>
          rw [hasPref_single_cons] at hnp ⊢
          have hec : e ≤ c := bytesLt_single_head_ge e c t hge
          have hne : ¬(e = c) := by simpa using hnp
          have hcc : c ≤ c' := bytesLt_head_le c c' t t' hlt
          simp
          omega

/-- Every key left by the seek (modelled as dropWhile) of a sorted key list
is at or past the prefix string. -/
lemma dropWhile_ge (e : Nat) (keys : List Bytes)
    (hs : List.Pairwise (fun a b => bytesLt a b = true) keys) :
    ∀ k ∈ keys.dropWhile (fun x => bytesLt x [e]), bytesLt k [e] = false := by
  induction keys with
  | nil => intro k hk; simp [List.dropWhile] at hk
  | cons a rest ih =>
      intro k hk
      by_cases ha : bytesLt a [e] = true
      · simp only [List.dropWhile_cons, ha, if_true] at hk
        exact ih hs.of_cons k hk
      · have ha' : bytesLt a [e] = false := Bool.eq_false_iff.mpr ha
        simp only [List.dropWhile_cons, ha', Bool.false_eq_true, if_false] at hk
        rcases List.mem_cons.mp hk with rfl | hk'
        · exact ha'
        · have hak : bytesLt a k = true := (List.pairwise_cons.mp hs).1 k hk'
          exact ge_single_trans e a k ha' hak

/-- Under the max bound, the List iteration loop with empty from argument is a
takeWhile on the prefix, stripping the one-byte prefix from each key. -/
lemma listLoop_eq_takeWhile (e : Nat) (r : List Bytes) :
    ∀ m : Int, (r.length : Int) < m →
    listLoop m [] [e] r = (r.takeWhile (fun k => hasPref [e] k)).map (fun k => k.drop 1) := by
  induction r with
  | nil => intro m hm; rfl
  | cons k rest ih =>
      intro m hm
      simp only [List.length_cons] at hm
      by_cases hp : hasPref [e] k = true
      · have hm1 : ¬ (m - 1 < 1) := by push_cast at hm; omega
        simp only [listLoop, hp, if_true]
        rw [if_neg (by simp)]
        rw [if_neg hm1]
        rw [ih (m - 1) (by push_cast at hm ⊢; omega)]
        simp [List.takeWhile_cons, hp]
      · have hp' : hasPref [e] k = false := Bool.eq_false_iff.mpr hp
        simp [listLoop, List.takeWhile_cons, hp']

/-- On a sorted list of keys at or past the prefix string, the prefixed keys
form an initial segment: takeWhile and filter agree. -/
lemma takeWhile_eq_filter (e : Nat) (r : List Bytes)
    (hp : List.Pairwise (fun a b => bytesLt a b = true) r)
    (hge : ∀ k ∈ r, bytesLt k [e] = false) :
    r.takeWhile (fun k => hasPref [e] k) = r.filter (fun k => hasPref [e] k) := by
  induction r with
  | nil => rfl
  | cons a rest ih =>
      by_cases ha : hasPref [e] a = true
      · simp only [List.takeWhile_cons, List.filter_cons, ha, if_true]
        rw [ih hp.of_cons (fun k hk => hge k (List.mem_cons_of_mem a hk))]
      · have ha' : hasPref [e] a = false := Bool.eq_false_iff.mpr ha
        simp only [List.takeWhile_cons, List.filter_cons, ha', Bool.false_eq_true, if_false]
        rw [eq_comm, List.filter_eq_nil_iff]
        intro k hk
        have hak : bytesLt a k = true := (List.pairwise_cons.mp hp).1 k hk
        have hgea : bytesLt a [e] = false := hge a (List.mem_cons_self a rest)
        simp [ge_not_pref_trans e a k hgea ha' hak]

/-- C7: on a sorted key set smaller than the largest int64, the entityCount
computed by NewScrutinizer equals the number of stored keys extending the
entity prefix. -/
theorem newScrutinizer_entityCount_counts_entity_keys (keys : List Bytes)
    (hs : List.Pairwise (fun a b => bytesLt a b = true) keys)
    (hn : (keys.length : Int) < maxInt64) :
    newScrutinizerEntityCount keys =
      Int.ofNat (keys.filter (fun k => hasPref [entityPrefByte] k)).length := by
  unfold newScrutinizerEntityCount scrutinizerList
  simp only [List.append_nil]
  have hsub : (keys.dropWhile (fun k => bytesLt k [entityPrefByte])).Sublist keys :=
    List.dropWhile_sublist _
  have hpr : List.Pairwise (fun a b => bytesLt a b = true)
      (keys.dropWhile (fun k => bytesLt k [entityPrefByte])) :=
    List.Pairwise.sublist hsub hs
  have hge := dropWhile_ge entityPrefByte keys hs
  have hlen : ((keys.dropWhile (fun k => bytesLt k [entityPrefByte])).length : Int) < maxInt64 :=
    lt_of_le_of_lt (by exact_mod_cast hsub.length_le) hn
  rw [listLoop_eq_takeWhile entityPrefByte _ maxInt64 hlen]
  rw [takeWhile_eq_filter entityPrefByte _ hpr hge]
  rw [List.length_map]
  have hsplit : keys.filter (fun k => hasPref [entityPrefByte] k) =
      (keys.dropWhile (fun k => bytesLt k [entityPrefByte])).filter
        (fun k => hasPref [entityPrefByte] k) := by
    conv_lhs =>
      rw [← List.takeWhile_append_dropWhile (fun k => bytesLt k [entityPrefByte]) keys]
    rw [List.filter_append]
    have h1 : (keys.takeWhile (fun k => bytesLt k [entityPrefByte])).filter
        (fun k => hasPref [entityPrefByte] k) = [] := by
      rw [List.filter_eq_nil_iff]
      intro k hk
      have hk' : bytesLt k [entityPrefByte] = true :=
        @List.mem_takeWhile_imp _ (fun x => bytesLt x [entityPrefByte]) keys k hk
      simp [lt_single_not_pref entityPrefByte k hk']
    rw [h1, List.nil_append]
  rw [hsplit]

/-- A concrete sorted key set: one key below the entity range, two entity
keys, one key above. -/
def keysC : List Bytes := [[65], [69, 1], [69, 2], [82, 5]]

/-- Witness for C7: on the concrete key set the reconstructed entityCount is
2, the number of entity-prefixed keys. -/
theorem newScrutinizer_entityCount_counts_entity_keys_witness :
    List.Pairwise (fun a b => bytesLt a b = true) keysC ∧
    newScrutinizerEntityCount keysC =
      Int.ofNat (keysC.filter (fun k => hasPref [entityPrefByte] k)).length ∧
    Int.ofNat (keysC.filter (fun k => hasPref [entityPrefByte] k)).length = 2 :=
  ⟨by decide,
   newScrutinizer_entityCount_counts_entity_keys keysC (by decide)
     (by norm_num [maxInt64, keysC]),
   by decide⟩

end Dvote
